import Mathlib

/-!
Shallow embedding of the Atari_RL network-topology library (`models/mlp.py`) and the
TD3 experiment assembly (`projects/policy_based/TD3_BipedalWalker-v2.py`).

Three complementary views of the same source are embedded, each faithful to the
aspect of the code the corresponding claims are about:

* a value-level view (`MLP`, `NormalBranches`, `GaussianDistMLP`): layers carry their
  weight matrices inline and `forward` computes the numeric outputs;
* an initialization-count view (`Module`): modules carry counters of how often the
  weight initializer has touched each affine weight and each bias, and
  `Module.applyInit` models `self.apply(init_linear_weights_xavier)`;
* a parameter-store view (`MLPL`, `Heap`): parameter tensors live at allocated heap
  locations, so aliasing, mutation and optimizer binding can be stated.

Numeric scalars are rationals.  Activation modules (`nn.ReLU()`, `nn.Tanh()`,
`nn.Sequential()` as identity) are external collaborators supplied to the
constructors: networks store an `Act` tag and every evaluation is parameterized by
an interpretation `ι : Act → ℚ → ℚ` of the tags as elementwise maps.
-/

/-- Activation-policy tags occurring in the embedded constructions.  `identity`
stands for the `nn.Sequential()` default, `relu` for `nn.ReLU()`, `tanh` for
`nn.Tanh()`. -/
inductive Act
  | identity
  | relu
  | tanh
deriving DecidableEq

/-- Dot product of two rational vectors (truncating to the shorter length,
as the summation underlying a matrix-vector product). -/
def dot (a b : List ℚ) : ℚ := ((a.zip b).map fun p => p.1 * p.2).sum

/-- `affine w b x` is the affine map of `nn.Linear` with weight rows `w` and bias
`b` applied to `x`: row `i` of the output is `⟨w i, x⟩ + b i`. -/
def affine (w : List (List ℚ)) (b : List ℚ) (x : List ℚ) : List ℚ :=
  (w.zip b).map fun rb => dot rb.1 x + rb.2

/-- A layer of an `nn.Sequential`: either an affine (`nn.Linear`) layer holding its
weight matrix and bias, or an activation module. -/
inductive Layer
  | linear (w : List (List ℚ)) (b : List ℚ)
  | act (a : Act)
deriving DecidableEq

/-- Value-level view of `MLP` (`models/mlp.py`, lines 10–55): the `fcs` sequential
container built by `MLP.__init__`. -/
structure MLP where
  fcs : List Layer
deriving DecidableEq

/-- A weight source: `init k i o` is the parameter draw of index `k` for an
`nn.Linear(i, o)`, as a (rows, bias) pair.  Successive `nn.Linear` constructions
consume successive draw indices, modelling independent random initialization. -/
abbrev Init := Nat → Nat → Nat → List (List ℚ) × List ℚ

/-- A weight source is well formed when draw `k` for `nn.Linear(i, o)` has `o`
rows of length `i` and a bias of length `o` (the shape contract of `nn.Linear`). -/
def WFInit (init : Init) : Prop :=
  ∀ k i o, (init k i o).1.length = o ∧ (∀ r ∈ (init k i o).1, r.length = i) ∧
    (init k i o).2.length = o

/-- Construction of one `nn.Linear(inF, outF)` using draw index `k`. -/
def mkLinearW (init : Init) (k inF outF : Nat) : Layer :=
  Layer.linear (init k inF outF).1 (init k inF outF).2

/-- The hidden-layer loop of `MLP.__init__` (lines 39–43): starting from width
`prev` and draw index `k`, emit `nn.Linear(prev, next)` followed by the hidden
activation for each hidden size.  Returns the layers, the final width `prev`,
and the next free draw index. -/
def hiddenLayers (init : Init) (hact : Act) : Nat → Nat → List Nat → List Layer × Nat × Nat
  | k, prev, [] => ([], prev, k)
  | k, prev, n :: rest =>
    let t := hiddenLayers init hact (k + 1) n rest
    (mkLinearW init k prev n :: Layer.act hact :: t.1, t.2)

/-- `MLP.__init__` (lines 13–51) starting at draw index `k`: hidden layers, then —
only when `output_size` is truthy (non-zero) — a final `nn.Linear` followed by the
output activation.  Returns the built network and the next free draw index. -/
def mkMLPFrom (init : Init) (k : Nat) (input_size : Nat) (hidden_sizes : List Nat)
    (output_size : Nat) (output_activation hidden_activation : Act) : MLP × Nat :=
  let t := hiddenLayers init hidden_activation k input_size hidden_sizes
  if output_size ≠ 0 then
    (⟨t.1 ++ [mkLinearW init t.2.2 t.2.1 output_size, Layer.act output_activation]⟩,
      t.2.2 + 1)
  else
    (⟨t.1⟩, t.2.2)

/-- `MLP(...)`: construction from a fresh weight source. -/
def mkMLP (init : Init) (input_size : Nat) (hidden_sizes : List Nat) (output_size : Nat)
    (output_activation hidden_activation : Act) : MLP :=
  (mkMLPFrom init 0 input_size hidden_sizes output_size output_activation
    hidden_activation).1

/-- One step of `nn.Sequential` evaluation under activation interpretation `ι`. -/
def Layer.run (ι : Act → ℚ → ℚ) : Layer → List ℚ → List ℚ
  | Layer.linear w b, v => affine w b v
  | Layer.act a, v => v.map (ι a)

/-- `MLP.forward` (lines 53–55): `self.fcs(x)`, the left-to-right composition of
the stored layers. -/
def MLP.forward (ι : Act → ℚ → ℚ) (m : MLP) (x : List ℚ) : List ℚ :=
  m.fcs.foldl (fun v l => l.run ι v) x

/-- An all-zeros weight source of the correct shapes, used to instantiate
theorems at concrete inputs. -/
def zeroInit : Init :=
  fun _ i o => (List.replicate o (List.replicate i 0), List.replicate o 0)

lemma affine_length (w : List (List ℚ)) (b : List ℚ) (x : List ℚ) :
    (affine w b x).length = min w.length b.length := by
  simp [affine]

lemma zeroInit_wf : WFInit zeroInit := by
  intro k i o
  refine ⟨by simp [zeroInit], ?_, by simp [zeroInit]⟩
  intro r hr
  simp [zeroInit] at hr
  simp [hr]

lemma hiddenLayers_snd (init : Init) (hact : Act) :
    ∀ (hidden : List Nat) (k prev : Nat),
      (hiddenLayers init hact k prev hidden).2.1 = hidden.getLastD prev := by
  intro hidden
  induction hidden with
  | nil => intro k prev; simp [hiddenLayers]
  | cons n rest ih =>
    intro k prev
    rw [List.getLastD_cons]
    simpa [hiddenLayers] using ih (k + 1) n

lemma hiddenLayers_forward_length (init : Init) (ι : Act → ℚ → ℚ) (hact : Act)
    (hwf : WFInit init) :
    ∀ (hidden : List Nat) (k prev : Nat) (x : List ℚ), x.length = prev →
      ((hiddenLayers init hact k prev hidden).1.foldl (fun v l => l.run ι v) x).length =
        (hiddenLayers init hact k prev hidden).2.1 := by
  intro hidden
  induction hidden with
  | nil => intro k prev x hx; simpa [hiddenLayers] using hx
  | cons n rest ih =>
    intro k prev x hx
    have hw := hwf k prev n
    simp only [hiddenLayers, List.foldl_cons]
    refine ih (k + 1) n _ ?_
    simp [Layer.run, mkLinearW, affine_length, hw.1, hw.2.2]

/-- C1: for every valid construction of `MLP` (`input_size > 0`, every hidden size
`> 0`, `output_size ≥ 0`) over a shape-correct weight source, and every input whose
trailing dimension equals `input_size`, the trailing dimension of the forward output
equals `output_size` when `output_size > 0`, else the last hidden width, else (when
`hidden_sizes` is empty and `output_size = 0`) `input_size`. -/
theorem mlp_forward_trailing_dim (init : Init) (ι : Act → ℚ → ℚ) (input_size : Nat)
    (hidden_sizes : List Nat) (output_size : Nat) (oact hact : Act) (x : List ℚ)
    (hwf : WFInit init) (hin : 0 < input_size) (hhid : ∀ h ∈ hidden_sizes, 0 < h)
    (hx : x.length = input_size) :
    ((mkMLP init input_size hidden_sizes output_size oact hact).forward ι x).length =
      if 0 < output_size then output_size else hidden_sizes.getLastD input_size := by
  have ht := hiddenLayers_forward_length init ι hact hwf hidden_sizes 0 input_size x hx
  have hl := hiddenLayers_snd init hact hidden_sizes 0 input_size
  by_cases ho : output_size = 0
  · subst ho
    simp only [mkMLP, mkMLPFrom, ne_eq, not_true_eq_false, if_false, MLP.forward,
      Nat.lt_irrefl]
    rw [ht, hl]
  · have hpos : 0 < output_size := Nat.pos_of_ne_zero ho
    simp only [mkMLP, mkMLPFrom, ne_eq, ho, not_false_eq_true, if_true, MLP.forward,
      List.foldl_append, List.foldl_cons, List.foldl_nil, if_pos hpos]
    have hw := hwf (hiddenLayers init hact 0 input_size hidden_sizes).2.2
      (hiddenLayers init hact 0 input_size hidden_sizes).2.1 output_size
    simp [Layer.run, mkLinearW, affine_length, hw.1, hw.2.2]

/-- Instantiation of `mlp_forward_trailing_dim` at the end-to-end scenario of the
spec: `MLP(input_size := 4, hidden_sizes := [8], output_size := 2)` on a length-4
input yields a length-2 output. -/
theorem mlp_forward_trailing_dim_witness :
    ((mkMLP zeroInit 4 [8] 2 Act.identity Act.relu).forward (fun _ => id)
        [0, 0, 0, 0]).length = if 0 < 2 then 2 else List.getLastD [8] 4 :=
  mlp_forward_trailing_dim zeroInit (fun _ => id) 4 [8] 2 Act.identity Act.relu
    [0, 0, 0, 0] zeroInit_wf (by decide) (by decide) rfl

/-- The three mutually exclusive construction outcomes of `NormalDistMLP.__init__`
(`models/mlp.py`, lines 64–135), selected by the `std_ones` / `share_net` flags:
only a mean network (`std_ones`), a shared trunk with two one-layer projections
(`share_net`), or two fully independent networks. -/
inductive NormalBranches
  | stdOnes (mu : MLP)
  | shared (hidden_layer : MLP) (mu : MLP) (sigma : MLP)
  | separate (mu : MLP) (sigma : MLP)
deriving DecidableEq

/-- Parameters `(loc, scale)` of the `torch.distributions.Normal` object returned
by the distribution heads. -/
structure NormalDist where
  loc : List ℚ
  scale : List ℚ
deriving DecidableEq

/-- `NormalDistMLP.__init__` (lines 64–135).  In the `share_net` branch the trunk
is `MLP(input_size, hidden_sizes)` with no output layer, `prev_layer` is the last
hidden size (or `input_size` when `hidden_sizes` is empty), and each of `mu` /
`sigma` is `nn.Sequential(nn.Linear(prev_layer, output_size), activation)`. -/
def mkNormalDistMLP (init : Init) (input_size : Nat) (hidden_sizes : List Nat)
    (output_size : Nat) (mu_activation sigma_activation hidden_activation : Act)
    (share_net std_ones : Bool) : NormalBranches :=
  if std_ones then
    NormalBranches.stdOnes
      (mkMLPFrom init 0 input_size hidden_sizes output_size mu_activation
        hidden_activation).1
  else if share_net then
    let t := mkMLPFrom init 0 input_size hidden_sizes 0 Act.identity hidden_activation
    let prev_layer := hidden_sizes.getLastD input_size
    NormalBranches.shared t.1
      ⟨[mkLinearW init t.2 prev_layer output_size, Layer.act mu_activation]⟩
      ⟨[mkLinearW init (t.2 + 1) prev_layer output_size, Layer.act sigma_activation]⟩
  else
    let t := mkMLPFrom init 0 input_size hidden_sizes output_size mu_activation
      hidden_activation
    NormalBranches.separate t.1
      (mkMLPFrom init t.2 input_size hidden_sizes output_size sigma_activation
        hidden_activation).1

/-- `NormalDistMLP.forward` (lines 137–151): compute `mu` and `sigma` according to
the construction case and return `Normal(mu, sigma)`.  With `std_ones`, `sigma` is
`torch.ones_like(mu)`. -/
def NormalBranches.forward (ι : Act → ℚ → ℚ) : NormalBranches → List ℚ → NormalDist
  | NormalBranches.stdOnes mu, x =>
    let m := mu.forward ι x
    ⟨m, List.replicate m.length 1⟩
  | NormalBranches.shared hidden_layer mu sigma, x =>
    let hv := hidden_layer.forward ι x
    ⟨mu.forward ι hv, sigma.forward ι hv⟩
  | NormalBranches.separate mu sigma, x =>
    ⟨mu.forward ι x, sigma.forward ι x⟩

/-- The two construction outcomes of `GaussianDistMLP.__init__` (lines 155–207),
selected by `share_net`; identical to the corresponding branches of
`NormalDistMLP.__init__`. -/
inductive DistBranches
  | shared (hidden_layer : MLP) (mu : MLP) (sigma : MLP)
  | separate (mu : MLP) (sigma : MLP)
deriving DecidableEq

/-- Value-level view of `GaussianDistMLP` (lines 153–225): the log-std bounds and
the networks built by the constructor. -/
structure GaussianDistMLP where
  log_std_min : ℚ
  log_std_max : ℚ
  branches : DistBranches
deriving DecidableEq

/-- `GaussianDistMLP.__init__` (lines 155–207). -/
def mkGaussianDistMLP (init : Init) (input_size : Nat) (hidden_sizes : List Nat)
    (output_size : Nat) (mu_activation sigma_activation hidden_activation : Act)
    (share_net : Bool) (log_std_min log_std_max : ℚ) : GaussianDistMLP :=
  if share_net then
    let t := mkMLPFrom init 0 input_size hidden_sizes 0 Act.identity hidden_activation
    let prev_layer := hidden_sizes.getLastD input_size
    ⟨log_std_min, log_std_max,
      DistBranches.shared t.1
        ⟨[mkLinearW init t.2 prev_layer output_size, Layer.act mu_activation]⟩
        ⟨[mkLinearW init (t.2 + 1) prev_layer output_size, Layer.act sigma_activation]⟩⟩
  else
    let t := mkMLPFrom init 0 input_size hidden_sizes output_size mu_activation
      hidden_activation
    ⟨log_std_min, log_std_max,
      DistBranches.separate t.1
        (mkMLPFrom init t.2 input_size hidden_sizes output_size sigma_activation
          hidden_activation).1⟩

/-- The first half of `GaussianDistMLP.forward` (lines 209–217): the raw
`(mu, sigma)` pair before the log-std transform. -/
def DistBranches.forwardRaw (ι : Act → ℚ → ℚ) : DistBranches → List ℚ → List ℚ × List ℚ
  | DistBranches.shared hidden_layer mu sigma, x =>
    let hv := hidden_layer.forward ι x
    (mu.forward ι hv, sigma.forward ι hv)
  | DistBranches.separate mu sigma, x =>
    (mu.forward ι x, sigma.forward ι x)

/-- The log-std affine transform of `GaussianDistMLP.forward` (lines 220–222):
`log_std = log_std_min + 0.5 * (log_std_max - log_std_min) * (sigma + 1)` applied
to one entry of the raw sigma output.  The returned scale of the distribution is
`torch.exp` of this value (line 223). -/
def gauss_log_std (log_std_min log_std_max raw : ℚ) : ℚ :=
  log_std_min + 1 / 2 * (log_std_max - log_std_min) * (raw + 1)

/-- The second half of `GaussianDistMLP.forward` (lines 219–225) at the log-std
level: the distribution returned is `Normal(mu, exp log_std)` entrywise. -/
def GaussianDistMLP.forwardLogStd (ι : Act → ℚ → ℚ) (g : GaussianDistMLP)
    (x : List ℚ) : List ℚ × List ℚ :=
  let t := g.branches.forwardRaw ι x
  (t.1, t.2.map (gauss_log_std g.log_std_min g.log_std_max))

/-- C2 counterexample: the default head has `log_std_min = -20`, `log_std_max = 2`;
at the raw sigma-branch activation value `-1` (an element of the closed interval
`[-1, 1]`) the computed log-std is exactly `log_std_min`, so the returned scale
`exp log_std` is NOT strictly greater than `exp log_std_min`: the scale does not lie
strictly within the open interval. -/
theorem gaussian_scale_strict_bounds_cex :
    (mkGaussianDistMLP zeroInit 4 [8] 2 Act.identity Act.tanh Act.relu true
        (-20) 2).log_std_min = -20 ∧
    gauss_log_std (-20) 2 (-1) = -20 ∧
    ¬ Real.exp ((-20 : ℚ) : ℝ) < Real.exp ((gauss_log_std (-20) 2 (-1) : ℚ) : ℝ) := by
  refine ⟨rfl, by norm_num [gauss_log_std], ?_⟩
  rw [show gauss_log_std (-20) 2 (-1) = -20 by norm_num [gauss_log_std]]
  exact lt_irrefl _

/-- C2 (amended): for every `GaussianDistMLP` with `log_std_min < log_std_max` and
every raw sigma-branch activation value in the OPEN interval `(-1, 1)` (the actual
range of the default `tanh` squashing), the scale
`exp (log_std_min + 0.5*(log_std_max - log_std_min)*(raw + 1))` of the returned
Normal distribution lies strictly within `(exp log_std_min, exp log_std_max)`. -/
theorem gaussian_scale_bounds_open_interval (g : GaussianDistMLP) (raw : ℚ)
    (hb : g.log_std_min < g.log_std_max) (h1 : -1 < raw) (h2 : raw < 1) :
    Real.exp ((g.log_std_min : ℚ) : ℝ) <
        Real.exp ((gauss_log_std g.log_std_min g.log_std_max raw : ℚ) : ℝ) ∧
      Real.exp ((gauss_log_std g.log_std_min g.log_std_max raw : ℚ) : ℝ) <
        Real.exp ((g.log_std_max : ℚ) : ℝ) := by
  have hlo : g.log_std_min < gauss_log_std g.log_std_min g.log_std_max raw := by
    unfold gauss_log_std; nlinarith
  have hhi : gauss_log_std g.log_std_min g.log_std_max raw < g.log_std_max := by
    unfold gauss_log_std; nlinarith
  exact ⟨Real.exp_lt_exp.mpr (by exact_mod_cast hlo),
    Real.exp_lt_exp.mpr (by exact_mod_cast hhi)⟩

/-- Instantiation of `gaussian_scale_bounds_open_interval` at the spec's end-to-end
scenario head (`log_std_min = -20`, `log_std_max = 2`) and raw value `0`. -/
theorem gaussian_scale_bounds_open_interval_witness :
    Real.exp (((mkGaussianDistMLP zeroInit 4 [8] 2 Act.identity Act.tanh Act.relu true
          (-20) 2).log_std_min : ℝ)) <
        Real.exp ((gauss_log_std
          (mkGaussianDistMLP zeroInit 4 [8] 2 Act.identity Act.tanh Act.relu true
            (-20) 2).log_std_min
          (mkGaussianDistMLP zeroInit 4 [8] 2 Act.identity Act.tanh Act.relu true
            (-20) 2).log_std_max 0 : ℚ) : ℝ) ∧
      Real.exp ((gauss_log_std
          (mkGaussianDistMLP zeroInit 4 [8] 2 Act.identity Act.tanh Act.relu true
            (-20) 2).log_std_min
          (mkGaussianDistMLP zeroInit 4 [8] 2 Act.identity Act.tanh Act.relu true
            (-20) 2).log_std_max 0 : ℚ) : ℝ) <
        Real.exp (((mkGaussianDistMLP zeroInit 4 [8] 2 Act.identity Act.tanh Act.relu
          true (-20) 2).log_std_max : ℝ)) :=
  gaussian_scale_bounds_open_interval
    (mkGaussianDistMLP zeroInit 4 [8] 2 Act.identity Act.tanh Act.relu true (-20) 2)
    0 (by norm_num [mkGaussianDistMLP]) (by norm_num) (by norm_num)

/-- C5: for every `NormalDistMLP` constructed with `std_ones = true` and every
input, only a mean-producing network is built (the construction is exactly
`stdOnes` of the mean `MLP`, so no learnable scale parameters exist), and the scale
of the returned Normal distribution is a tensor of exact ones shaped like `mu`. -/
theorem std_ones_unit_scale (init : Init) (ι : Act → ℚ → ℚ) (input_size : Nat)
    (hidden_sizes : List Nat) (output_size : Nat)
    (mu_act sig_act h_act : Act) (share_net : Bool) (x : List ℚ) :
    mkNormalDistMLP init input_size hidden_sizes output_size mu_act sig_act h_act
        share_net true =
      NormalBranches.stdOnes (mkMLP init input_size hidden_sizes output_size mu_act
        h_act) ∧
    ((mkNormalDistMLP init input_size hidden_sizes output_size mu_act sig_act h_act
        share_net true).forward ι x).scale =
      List.replicate ((mkNormalDistMLP init input_size hidden_sizes output_size mu_act
        sig_act h_act share_net true).forward ι x).loc.length 1 :=
  ⟨rfl, rfl⟩

/-- C8: for every `NormalDistMLP` with `std_ones = false`, the scale of the Normal
distribution returned by `forward` equals the raw output of the sigma branch
exactly (the sigma projection applied to the trunk output in the shared case, the
sigma network applied to the raw input in the separate case): the head applies no
clamping, squashing, or other positivity-enforcing transformation. -/
theorem normal_head_scale_is_raw_sigma (init : Init) (ι : Act → ℚ → ℚ)
    (input_size : Nat) (hidden_sizes : List Nat) (output_size : Nat)
    (mu_act sig_act h_act : Act) (x : List ℚ) :
    ((mkNormalDistMLP init input_size hidden_sizes output_size mu_act sig_act h_act
        true false).forward ι x).scale =
      (MLP.mk [mkLinearW init
          ((mkMLPFrom init 0 input_size hidden_sizes 0 Act.identity h_act).2 + 1)
          (hidden_sizes.getLastD input_size) output_size,
        Layer.act sig_act]).forward ι
        ((mkMLPFrom init 0 input_size hidden_sizes 0 Act.identity
          h_act).1.forward ι x) ∧
    ((mkNormalDistMLP init input_size hidden_sizes output_size mu_act sig_act h_act
        false false).forward ι x).scale =
      ((mkMLPFrom init
          (mkMLPFrom init 0 input_size hidden_sizes output_size mu_act h_act).2
          input_size hidden_sizes output_size sig_act h_act).1).forward ι x :=
  ⟨rfl, rfl⟩

/-- C10: for `NormalDistMLP` and `GaussianDistMLP` constructed with
`share_net = true` and empty `hidden_sizes`, the shared trunk is empty (identity on
the input) and each of the `mu` and `sigma` branches is a single affine transform
from `input_size` to `output_size` followed by its activation, applied directly to
the raw input. -/
theorem empty_hidden_shared_structure (init : Init) (ι : Act → ℚ → ℚ)
    (input_size output_size : Nat) (mu_act sig_act h_act : Act)
    (log_std_min log_std_max : ℚ) (x : List ℚ) :
    mkNormalDistMLP init input_size [] output_size mu_act sig_act h_act true false =
      NormalBranches.shared ⟨[]⟩
        ⟨[mkLinearW init 0 input_size output_size, Layer.act mu_act]⟩
        ⟨[mkLinearW init 1 input_size output_size, Layer.act sig_act]⟩ ∧
    (MLP.mk []).forward ι x = x ∧
    (mkNormalDistMLP init input_size [] output_size mu_act sig_act h_act true
        false).forward ι x =
      ⟨(affine (init 0 input_size output_size).1 (init 0 input_size output_size).2
          x).map (ι mu_act),
        (affine (init 1 input_size output_size).1 (init 1 input_size output_size).2
          x).map (ι sig_act)⟩ ∧
    mkGaussianDistMLP init input_size [] output_size mu_act sig_act h_act true
        log_std_min log_std_max =
      ⟨log_std_min, log_std_max,
        DistBranches.shared ⟨[]⟩
          ⟨[mkLinearW init 0 input_size output_size, Layer.act mu_act]⟩
          ⟨[mkLinearW init 1 input_size output_size, Layer.act sig_act]⟩⟩ ∧
    (mkGaussianDistMLP init input_size [] output_size mu_act sig_act h_act true
        log_std_min log_std_max).branches.forwardRaw ι x =
      ((affine (init 0 input_size output_size).1 (init 0 input_size output_size).2
          x).map (ι mu_act),
        (affine (init 1 input_size output_size).1 (init 1 input_size output_size).2
          x).map (ι sig_act)) :=
  ⟨rfl, rfl, rfl, rfl, rfl⟩

/-- The error raised by the underlying torch tensor allocation when an `nn.Linear`
is constructed with a negative dimension.  The repository defines no error class of
its own; in particular no `InvalidTopologyError` exists anywhere in the code, so
this is the only way a construction can fail. -/
inductive TorchError
  | runtimeError
deriving DecidableEq

/-- `nn.Linear(inF, outF)` over Python ints: the constructor itself performs no
validation; the tensor allocation raises `RuntimeError` when a dimension is
negative (zero dimensions are accepted by torch), otherwise the layer is built. -/
def mkLinearInt (init : Init) (k : Nat) (inF outF : Int) : Except TorchError Layer :=
  if inF < 0 ∨ outF < 0 then Except.error TorchError.runtimeError
  else Except.ok (mkLinearW init k inF.toNat outF.toNat)

/-- The hidden-layer loop of `MLP.__init__` over Python ints, propagating the
allocation error of any `nn.Linear` it constructs. -/
def hiddenLayersInt (init : Init) (hact : Act) :
    Nat → Int → List Int → Except TorchError (List Layer × Int × Nat)
  | k, prev, [] => Except.ok ([], prev, k)
  | k, prev, n :: rest =>
    match mkLinearInt init k prev n with
    | Except.error e => Except.error e
    | Except.ok l =>
      match hiddenLayersInt init hact (k + 1) n rest with
      | Except.error e => Except.error e
      | Except.ok t => Except.ok (l :: Layer.act hact :: t.1, t.2)

/-- `MLP.__init__` over Python ints (lines 13–51): no size validation of its own;
the only possible failure is the `RuntimeError` of an `nn.Linear` allocation.
`if output_size:` is Python truthiness, i.e. `output_size ≠ 0`. -/
def mkMLPInt (init : Init) (input_size : Int) (hidden_sizes : List Int)
    (output_size : Int) (output_activation hidden_activation : Act) :
    Except TorchError MLP :=
  match hiddenLayersInt init hidden_activation 0 input_size hidden_sizes with
  | Except.error e => Except.error e
  | Except.ok t =>
    if output_size ≠ 0 then
      match mkLinearInt init t.2.2 t.2.1 output_size with
      | Except.error e => Except.error e
      | Except.ok l => Except.ok ⟨t.1 ++ [l, Layer.act output_activation]⟩
    else
      Except.ok ⟨t.1⟩

lemma hiddenLayersInt_cons_isOk (init : Init) (hact : Act) (k : Nat) (prev n : Int)
    (rest : List Int) :
    (hiddenLayersInt init hact k prev (n :: rest)).isOk =
      (decide (0 ≤ prev) && decide (0 ≤ n) &&
        (hiddenLayersInt init hact (k + 1) n rest).isOk) := by
  by_cases hneg : prev < 0 ∨ n < 0
  · have h1 : (decide (0 ≤ prev) && decide (0 ≤ n)) = false := by
      rcases hneg with h | h <;> simp [not_le.mpr h]
    simp [hiddenLayersInt, mkLinearInt, if_pos hneg, h1, Except.isOk, Except.toBool]
  · push_neg at hneg
    have h1 : (decide (0 ≤ prev) && decide (0 ≤ n)) = true := by
      simp [hneg.1, hneg.2]
    have h2 : ¬(prev < 0 ∨ n < 0) := not_or.mpr ⟨not_lt.mpr hneg.1, not_lt.mpr hneg.2⟩
    cases hres : hiddenLayersInt init hact (k + 1) n rest with
    | error e =>
      simp [hiddenLayersInt, mkLinearInt, if_neg h2, hres, h1, Except.isOk,
        Except.toBool]
    | ok t =>
      simp [hiddenLayersInt, mkLinearInt, if_neg h2, hres, h1, Except.isOk,
        Except.toBool]

lemma hiddenLayersInt_isOk (init : Init) (hact : Act) :
    ∀ (hidden : List Int) (k : Nat) (prev : Int),
      (hiddenLayersInt init hact k prev hidden).isOk =
        (hidden.all (fun h => decide (0 ≤ h)) &&
          (decide (0 ≤ prev) || hidden.isEmpty)) := by
  intro hidden
  induction hidden with
  | nil => intro k prev; simp [hiddenLayersInt, Except.isOk, Except.toBool]
  | cons n rest ih =>
    intro k prev
    rw [hiddenLayersInt_cons_isOk, ih (k + 1) n]
    cases hp : decide (0 ≤ prev) <;> cases hn : decide (0 ≤ n) <;>
      cases he : rest.isEmpty <;> simp [List.all_cons, hn, *]

lemma hiddenLayersInt_ok_val (init : Init) (hact : Act) :
    ∀ (hidden : List Int) (k : Nat) (prev : Int) (t : List Layer × Int × Nat),
      hiddenLayersInt init hact k prev hidden = Except.ok t →
        t.2.1 = hidden.getLastD prev := by
  intro hidden
  induction hidden with
  | nil =>
    intro k prev t ht
    simp only [hiddenLayersInt] at ht
    injection ht with h
    subst h
    rfl
  | cons n rest ih =>
    intro k prev t ht
    rw [List.getLastD_cons]
    by_cases hneg : prev < 0 ∨ n < 0
    · simp [hiddenLayersInt, mkLinearInt, if_pos hneg] at ht
    · cases hres : hiddenLayersInt init hact (k + 1) n rest with
      | error e =>
        simp [hiddenLayersInt, mkLinearInt, if_neg hneg, hres] at ht
      | ok t2 =>
        simp only [hiddenLayersInt, mkLinearInt, if_neg hneg, hres] at ht
        injection ht with h
        subst h
        simpa using ih (k + 1) n t2 hres

/-- C3 counterexample: constructing an `MLP` with the hidden size `0` (a hidden
size `≤ 0`) does not fail at all — a fully built network is returned — contradicting
the claim that any hidden size `≤ 0` fails with `InvalidTopologyError`. -/
theorem mlp_zero_hidden_size_constructs_cex :
    (mkMLPInt zeroInit 3 [0] 2 Act.identity Act.relu).isOk = true := by decide

lemma getLastD_nonneg_of_all :
    ∀ (l : List Int) (d : Int), (∀ x ∈ l, 0 ≤ x) → l ≠ [] → 0 ≤ l.getLastD d := by
  intro l
  induction l with
  | nil => intro d _ hne; exact absurd rfl hne
  | cons x xs ih =>
    intro d hall _
    rw [List.getLastD_cons]
    by_cases hxs : xs = []
    · subst hxs; simpa using hall x (by simp)
    · exact ih x (fun y hy => hall y (by simp [hy])) hxs

/-- C3 (amended): `MLP.__init__` performs no size validation and the repository
defines no `InvalidTopologyError`; construction fails — with the underlying torch
allocation `RuntimeError` — exactly when some `nn.Linear` receives a negative
dimension: when some hidden size is negative, when `input_size` is negative and at
least one layer is built from it (`hidden_sizes` nonempty or `output_size ≠ 0`),
or when `output_size` is negative.  In particular a hidden size of `0` (and
`output_size = 0`, which merely omits the output layer) yields a fully built
network. -/
theorem mlp_construction_failure_iff (init : Init) (input_size : Int)
    (hidden_sizes : List Int) (output_size : Int) (oact hact : Act) :
    (mkMLPInt init input_size hidden_sizes output_size oact hact).isOk = false ↔
      ((∃ h ∈ hidden_sizes, h < 0) ∨
        (input_size < 0 ∧ (hidden_sizes ≠ [] ∨ output_size ≠ 0)) ∨
        output_size < 0) := by
  have hok := hiddenLayersInt_isOk init hact hidden_sizes 0 input_size
  cases hres : hiddenLayersInt init hact 0 input_size hidden_sizes with
  | error e =>
    rw [hres] at hok
    simp [Except.isOk, Except.toBool] at hok
    refine iff_of_true ?_ ?_
    · simp [mkMLPInt, hres, Except.isOk, Except.toBool]
    · by_cases hall : ∀ x ∈ hidden_sizes, 0 ≤ x
      · exact Or.inr (Or.inl ⟨(hok hall).1, Or.inl (hok hall).2⟩)
      · push_neg at hall
        obtain ⟨x, hx, hlt⟩ := hall
        exact Or.inl ⟨x, hx, hlt⟩
  | ok t =>
    rw [hres] at hok
    simp [Except.isOk, Except.toBool] at hok
    have hval := hiddenLayersInt_ok_val init hact hidden_sizes 0 input_size t hres
    by_cases ho : output_size = 0
    · subst ho
      refine iff_of_false ?_ ?_
      · simp [mkMLPInt, hres, Except.isOk, Except.toBool]
      · rintro (⟨h, hh, hlt⟩ | ⟨hin, hne | hne⟩ | hneg2)
        · exact absurd hlt (not_lt.mpr (hok.1 h hh))
        · rcases hok.2 with h0 | hemp
          · exact absurd hin (not_lt.mpr h0)
          · exact hne hemp
        · exact hne rfl
        · exact absurd hneg2 (lt_irrefl 0)
    · by_cases hlin : t.2.1 < 0 ∨ output_size < 0
      · refine iff_of_true ?_ ?_
        · simp only [mkMLPInt, hres, if_pos ho, mkLinearInt, if_pos hlin]
          simp [Except.isOk, Except.toBool]
        · rcases hlin with h | h
          · rw [hval] at h
            by_cases hemp : hidden_sizes = []
            · subst hemp
              simp only [List.getLastD_nil] at h
              exact Or.inr (Or.inl ⟨h, Or.inr ho⟩)
            · exact absurd h (not_lt.mpr
                (getLastD_nonneg_of_all hidden_sizes input_size hok.1 hemp))
          · exact Or.inr (Or.inr h)
      · refine iff_of_false ?_ ?_
        · simp only [mkMLPInt, hres, if_pos ho, mkLinearInt, if_neg hlin]
          simp [Except.isOk, Except.toBool]
        · push_neg at hlin
          rintro (⟨h, hh, hlt⟩ | ⟨hin, _⟩ | hneg2)
          · exact absurd hlt (not_lt.mpr (hok.1 h hh))
          · rcases hok.2 with h0 | hemp
            · exact absurd hin (not_lt.mpr h0)
            · rw [hemp, List.getLastD_nil] at hval
              rw [hval] at hlin
              exact absurd hin (not_lt.mpr hlin.1)
          · exact absurd hneg2 (not_lt.mpr hlin.2)

/-- Initialization-count view of a torch module tree: an affine (`nn.Linear`)
leaf records how many times the initializer has re-initialized its weight
(`wInits`) and its bias (`bInits`); activation modules and containers
(`nn.Sequential`, the networks themselves) own no parameters of their own. -/
inductive TModule
  | linear (inF outF wInits bInits : Nat)
  | mact (a : Act)
  | container (subs : List TModule)

mutual

/-- `self.apply(init_linear_weights_xavier)`: torch's `apply` visits every
submodule of the tree exactly once; the initializer (`models/initializer.py`, not
part of the excerpt — modelled from the spec: a fan-in/fan-out–scaled scheme that
re-initializes the weight of every affine sublayer and touches neither bias
vectors nor non-affine modules) increments the weight counter of each `nn.Linear`
and changes nothing else. -/
def TModule.applyInit : TModule → TModule
  | TModule.linear i o w b => TModule.linear i o (w + 1) b
  | TModule.mact a => TModule.mact a
  | TModule.container subs => TModule.container (TModule.applyInitList subs)

/-- `applyInit` mapped over the children of a container. -/
def TModule.applyInitList : List TModule → List TModule
  | [] => []
  | m :: ms => TModule.applyInit m :: TModule.applyInitList ms

end

mutual

/-- The `(wInits, bInits)` counter pairs of all affine sublayers of a module tree,
in traversal order. -/
def TModule.linearCounts : TModule → List (Nat × Nat)
  | TModule.linear _ _ w b => [(w, b)]
  | TModule.mact _ => []
  | TModule.container subs => TModule.linearCountsList subs

/-- `linearCounts` concatenated over the children of a container. -/
def TModule.linearCountsList : List TModule → List (Nat × Nat)
  | [] => []
  | m :: ms => m.linearCounts ++ TModule.linearCountsList ms

end

/-- The hidden-layer loop of `MLP.__init__` in the counter view: fresh `nn.Linear`
modules (initializer not yet applied) interleaved with the hidden activation. -/
def mlpLayersM (hact : Act) : Nat → List Nat → List TModule × Nat
  | prev, [] => ([], prev)
  | prev, n :: rest =>
    let t := mlpLayersM hact n rest
    (TModule.linear prev n 0 0 :: TModule.mact hact :: t.1, t.2)

/-- `MLP(...)` in the counter view: the module owns the `fcs` container of layers;
`MLP.__init__` ends with `self.apply(init_linear_weights_xavier)` (line 51),
traversing the whole tree. -/
def mkMLPM (input_size : Nat) (hidden_sizes : List Nat) (output_size : Nat)
    (output_activation hidden_activation : Act) : TModule :=
  let t := mlpLayersM hidden_activation input_size hidden_sizes
  let fcs := if output_size ≠ 0 then
      t.1 ++ [TModule.linear t.2 output_size 0 0, TModule.mact output_activation]
    else t.1
  TModule.applyInit (TModule.container [TModule.container fcs])

/-- `NormalDistMLP(...)` in the counter view (lines 92–135): the flag-selected
submodules, then `self.apply(init_linear_weights_xavier)` (line 135) over the whole
head — on top of the `apply` already performed inside each nested `MLP`
constructor. -/
def mkNormalDistMLPM (input_size : Nat) (hidden_sizes : List Nat) (output_size : Nat)
    (mu_activation sigma_activation hidden_activation : Act)
    (share_net std_ones : Bool) : TModule :=
  if std_ones then
    TModule.applyInit (TModule.container
      [mkMLPM input_size hidden_sizes output_size mu_activation hidden_activation])
  else if share_net then
    let prev_layer := hidden_sizes.getLastD input_size
    TModule.applyInit (TModule.container
      [mkMLPM input_size hidden_sizes 0 Act.identity hidden_activation,
        TModule.container [TModule.linear prev_layer output_size 0 0,
          TModule.mact mu_activation],
        TModule.container [TModule.linear prev_layer output_size 0 0,
          TModule.mact sigma_activation]])
  else
    TModule.applyInit (TModule.container
      [mkMLPM input_size hidden_sizes output_size mu_activation hidden_activation,
        mkMLPM input_size hidden_sizes output_size sigma_activation
          hidden_activation])

mutual

lemma applyInit_counts : ∀ (m : TModule),
    (TModule.applyInit m).linearCounts =
      m.linearCounts.map (fun c => (c.1 + 1, c.2))
  | TModule.linear i o w b => by
    simp [TModule.applyInit, TModule.linearCounts]
  | TModule.mact a => by
    simp [TModule.applyInit, TModule.linearCounts]
  | TModule.container subs => by
    simp [TModule.applyInit, TModule.linearCounts, applyInitList_counts subs]

lemma applyInitList_counts : ∀ (ms : List TModule),
    TModule.linearCountsList (TModule.applyInitList ms) =
      (TModule.linearCountsList ms).map (fun c => (c.1 + 1, c.2))
  | [] => by simp [TModule.applyInitList, TModule.linearCountsList]
  | m :: ms => by
    simp [TModule.applyInitList, TModule.linearCountsList, applyInit_counts m,
      applyInitList_counts ms]

end

lemma linearCounts_linear (i o w b : Nat) :
    (TModule.linear i o w b).linearCounts = [(w, b)] := by
  simp [TModule.linearCounts]

lemma linearCounts_mact (a : Act) : (TModule.mact a).linearCounts = [] := by
  simp [TModule.linearCounts]

lemma linearCounts_container (subs : List TModule) :
    (TModule.container subs).linearCounts = TModule.linearCountsList subs := by
  simp [TModule.linearCounts]

lemma linearCountsList_nil : TModule.linearCountsList [] = [] := by
  simp [TModule.linearCountsList]

lemma linearCountsList_cons (m : TModule) (ms : List TModule) :
    TModule.linearCountsList (m :: ms) =
      m.linearCounts ++ TModule.linearCountsList ms := by
  simp [TModule.linearCountsList]

lemma linearCountsList_append (a b : List TModule) :
    TModule.linearCountsList (a ++ b) =
      TModule.linearCountsList a ++ TModule.linearCountsList b := by
  induction a with
  | nil => simp [TModule.linearCountsList]
  | cons m ms ih => simp [TModule.linearCountsList, ih]

lemma mlpLayersM_counts (hact : Act) :
    ∀ (hidden : List Nat) (prev : Nat),
      TModule.linearCountsList (mlpLayersM hact prev hidden).1 =
        List.replicate hidden.length (0, 0) := by
  intro hidden
  induction hidden with
  | nil => intro prev; simp [mlpLayersM, TModule.linearCountsList]
  | cons n rest ih =>
    intro prev
    simp [mlpLayersM, TModule.linearCountsList, TModule.linearCounts, ih n,
      List.replicate_succ]

lemma mkMLPM_counts (input_size : Nat) (hidden_sizes : List Nat) (output_size : Nat)
    (oact hact : Act) :
    (mkMLPM input_size hidden_sizes output_size oact hact).linearCounts =
      List.replicate (hidden_sizes.length + (if output_size ≠ 0 then 1 else 0))
        (1, 0) := by
  by_cases ho : output_size = 0
  · subst ho
    simp only [mkMLPM, ne_eq, not_true_eq_false, if_false, applyInit_counts]
    simp [TModule.linearCounts, TModule.linearCountsList, mlpLayersM_counts,
      List.map_replicate]
  · simp only [mkMLPM, ne_eq, ho, not_false_eq_true, if_true, applyInit_counts]
    simp [TModule.linearCounts, TModule.linearCountsList, linearCountsList_append,
      mlpLayersM_counts, ← List.replicate_succ', List.map_replicate]

/-- C4 counterexample: constructing `NormalDistMLP(1, [], 1, std_ones=True)` leaves
its single affine weight re-initialized twice — once by the nested `MLP`
constructor's `apply` and once by the head's own `apply` at line 135 — not exactly
once as claimed. -/
theorem init_double_apply_cex :
    (mkNormalDistMLPM 1 [] 1 Act.identity Act.identity Act.relu true
        true).linearCounts = [(2, 0)] ∧
      (mkNormalDistMLPM 1 [] 1 Act.identity Act.identity Act.relu true
        true).linearCounts ≠ [(1, 0)] := by
  have h : (mkNormalDistMLPM 1 [] 1 Act.identity Act.identity Act.relu true
      true).linearCounts = [(2, 0)] := by
    simp only [mkNormalDistMLPM, if_true]
    rw [applyInit_counts]
    simp [linearCounts_container, linearCountsList_cons, linearCountsList_nil,
      mkMLPM_counts]
  exact ⟨h, by rw [h]; decide⟩

/-- C4 (amended): each constructor invokes the initializer traversal once,
immediately after its own construction, and the traversal visits every owned affine
sublayer exactly once regardless of nesting depth, leaving bias counters at zero
and non-affine modules untouched; but because a distribution head's `apply` runs on
top of the `apply` already executed inside each nested `MLP` constructor, affine
weights inside a nested `MLP` end up re-initialized exactly twice, while the head's
own projection layers (shared case) are re-initialized exactly once.  Counts after
construction: bare `MLP` — all `(1, 0)`; `NormalDistMLP` with `std_ones` — all
`(2, 0)`; with `share_net` — the trunk's `(2, 0)`s followed by `(1, 0)` for each of
the two projections; separate — all `(2, 0)`. -/
theorem init_counts_per_constructor (input_size : Nat) (hidden_sizes : List Nat)
    (output_size : Nat) (mu_act sig_act oact hact : Act) :
    (mkMLPM input_size hidden_sizes output_size oact hact).linearCounts =
      List.replicate (hidden_sizes.length + (if output_size ≠ 0 then 1 else 0))
        (1, 0) ∧
    (∀ share_net : Bool,
      (mkNormalDistMLPM input_size hidden_sizes output_size mu_act sig_act hact
          share_net true).linearCounts =
        List.replicate (hidden_sizes.length + (if output_size ≠ 0 then 1 else 0))
          (2, 0)) ∧
    (mkNormalDistMLPM input_size hidden_sizes output_size mu_act sig_act hact
        true false).linearCounts =
      List.replicate hidden_sizes.length (2, 0) ++ [(1, 0), (1, 0)] ∧
    (mkNormalDistMLPM input_size hidden_sizes output_size mu_act sig_act hact
        false false).linearCounts =
      List.replicate (hidden_sizes.length + (if output_size ≠ 0 then 1 else 0))
          (2, 0) ++
        List.replicate (hidden_sizes.length + (if output_size ≠ 0 then 1 else 0))
          (2, 0) := by
  refine ⟨mkMLPM_counts input_size hidden_sizes output_size oact hact, ?_, ?_, ?_⟩
  · intro share_net
    simp only [mkNormalDistMLPM, if_true]
    rw [applyInit_counts]
    simp [linearCounts_container, linearCountsList_cons, linearCountsList_nil,
      mkMLPM_counts, List.map_replicate]
  · simp only [mkNormalDistMLPM, Bool.false_eq_true, if_false, if_true]
    rw [applyInit_counts]
    simp [linearCounts_container, linearCountsList_cons, linearCountsList_nil,
      linearCounts_linear, linearCounts_mact, mkMLPM_counts, List.map_replicate]
  · simp only [mkNormalDistMLPM, Bool.false_eq_true, if_false]
    rw [applyInit_counts]
    simp [linearCounts_container, linearCountsList_cons, linearCountsList_nil,
      mkMLPM_counts, List.map_replicate]

/-- A parameter tensor value: the bias vector or the weight matrix of an
`nn.Linear`. -/
inductive Tensor
  | vec (v : List ℚ)
  | mat (m : List (List ℚ))
deriving DecidableEq

/-- The parameter store: every allocated parameter tensor lives at a `Nat`
location, so distinctness of tensors and independent mutation can be stated. -/
def Heap : Type := Nat → Tensor

/-- In-place overwrite of the tensor at location `i` (torch's `copy_` /
assignment to `.data`). -/
def Heap.update (h : Heap) (i : Nat) (t : Tensor) : Heap :=
  fun j => if j = i then t else h j

/-- Allocation state: the store together with the next fresh location. -/
structure Alloc where
  heap : Heap
  next : Nat

/-- Allocate a fresh tensor: it receives the next free location. -/
def Alloc.alloc (st : Alloc) (t : Tensor) : Nat × Alloc :=
  (st.next, ⟨st.heap.update st.next t, st.next + 1⟩)

/-- A supply of freshly drawn parameter values, indexed by allocation order:
models the independent random initialization of each parameter tensor. -/
def Draws : Type := Nat → Tensor

/-- A layer of an `nn.Sequential` in the store view: an `nn.Linear` records its
declared widths and the locations of its weight and bias tensors. -/
inductive LayerL
  | linear (inF outF wLoc bLoc : Nat)
  | act (a : Act)
deriving DecidableEq

/-- Store view of `MLP`: the `fcs` container, with parameters held by
location. -/
structure MLPL where
  fcs : List LayerL
deriving DecidableEq

/-- `nn.Linear(inF, outF)`: allocates the weight tensor, then the bias tensor. -/
def mkLinearL (rand : Draws) (inF outF : Nat) (st : Alloc) : LayerL × Alloc :=
  let w := st.alloc (rand st.next)
  let b := w.2.alloc (rand w.2.next)
  (LayerL.linear inF outF w.1 b.1, b.2)

/-- The hidden-layer loop of `MLP.__init__` in the store view. -/
def hiddenLayersL (rand : Draws) (hact : Act) :
    Nat → List Nat → Alloc → List LayerL × Nat × Alloc
  | prev, [], st => ([], prev, st)
  | prev, n :: rest, st =>
    let l := mkLinearL rand prev n st
    let t := hiddenLayersL rand hact n rest l.2
    (l.1 :: LayerL.act hact :: t.1, t.2)

/-- `MLP.__init__` in the store view (lines 13–51). -/
def mkMLPL (rand : Draws) (input_size : Nat) (hidden_sizes : List Nat)
    (output_size : Nat) (output_activation hidden_activation : Act) (st : Alloc) :
    MLPL × Alloc :=
  let t := hiddenLayersL rand hidden_activation input_size hidden_sizes st
  if output_size ≠ 0 then
    let l := mkLinearL rand t.2.1 output_size t.2.2
    (⟨t.1 ++ [l.1, LayerL.act output_activation]⟩, l.2)
  else
    (⟨t.1⟩, t.2.2)

/-- The parameter-tensor locations owned by one layer. -/
def LayerL.locs : LayerL → List Nat
  | LayerL.linear _ _ w b => [w, b]
  | LayerL.act _ => []

/-- `net.parameters()`: the locations of all owned parameter tensors, in
registration order. -/
def MLPL.paramLocs (m : MLPL) : List Nat := (m.fcs.map LayerL.locs).flatten

/-- The location-free shape of a layer, for stating structural identity. -/
def LayerL.shape : LayerL → (Nat × Nat) ⊕ Act
  | LayerL.linear i o _ _ => Sum.inl (i, o)
  | LayerL.act a => Sum.inr a

/-- The topology of a network: layer shapes in order, ignoring parameter
identity. -/
def MLPL.topology (m : MLPL) : List ((Nat × Nat) ⊕ Act) := m.fcs.map LayerL.shape

/-- An optimizer: the parameter locations it is bound to and its learning rate. -/
structure Optim where
  params : List Nat
  lr : ℚ
deriving DecidableEq

/-- `optim.Adam(parameters, lr)`. -/
def Adam (params : List Nat) (lr : ℚ) : Optim := ⟨params, lr⟩

/-- The hyperparameter mapping returned by `Project.init_hyperparams`
(`TD3_BipedalWalker-v2.py`, lines 14–31). -/
structure Hyperparams where
  gamma : ℚ
  tau : ℚ
  min_sigma : ℚ
  max_sigma : ℚ
  noise_decay_period : Nat
  noise_std : ℚ
  noise_clip : ℚ
  policy_update_period : Nat
  batch_size : Nat
  memory_size : Nat
  max_episode_steps : Nat
  actor_lr : ℚ
  critic_lr : ℚ
  actor_hidden_sizes : List Nat
  critic_hidden_sizes : List Nat
deriving DecidableEq

/-- `Project.init_hyperparams` (lines 14–31). -/
def init_hyperparams : Hyperparams :=
  ⟨99 / 100, 995 / 1000, 1 / 10, 1 / 10, 0, 2 / 10, 5 / 10, 2, 100, 1000000, 2000,
    1 / 1000, 1 / 1000, [400, 300], [400, 300]⟩

/-- Modelled from the spec: `hard_update` (imported from
`algorithms/utils/update.py`, which is not part of the excerpt) performs a one-time
hard parameter copy from the live network to its target counterpart — each of the
target's parameter tensors is fully overwritten with the value of the
corresponding live parameter tensor (target ← live, full overwrite). -/
def hard_update (live target : MLPL) (h : Heap) : Heap :=
  (live.paramLocs.zip target.paramLocs).foldl
    (fun hh p => hh.update p.2 (hh p.1)) h

/-- The bundle returned by `Project.init_model` (lines 90–97). -/
structure ModelBundle where
  actor : MLPL
  critic1 : MLPL
  critic2 : MLPL
  target_actor : MLPL
  target_critic1 : MLPL
  target_critic2 : MLPL
  actor_optim : Optim
  critic_optim1 : Optim
  critic_optim2 : Optim

/-- `Project.init_model` (lines 43–97): build the six networks in source order,
bind one Adam optimizer to each live network's parameters, then hard-copy each
live network into its target.  `state_size` and `action_size` come from the
environment; construction starts from an empty store. -/
def init_model (rand : Draws) (state_size action_size : Nat) : ModelBundle × Heap :=
  let hp := init_hyperparams
  let st0 : Alloc := ⟨fun _ => Tensor.vec [], 0⟩
  let a := mkMLPL rand state_size hp.actor_hidden_sizes action_size Act.tanh
    Act.relu st0
  let ta := mkMLPL rand state_size hp.actor_hidden_sizes action_size Act.tanh
    Act.relu a.2
  let c1 := mkMLPL rand (state_size + action_size) hp.critic_hidden_sizes 1
    Act.identity Act.relu ta.2
  let c2 := mkMLPL rand (state_size + action_size) hp.critic_hidden_sizes 1
    Act.identity Act.relu c1.2
  let tc1 := mkMLPL rand (state_size + action_size) hp.critic_hidden_sizes 1
    Act.identity Act.relu c2.2
  let tc2 := mkMLPL rand (state_size + action_size) hp.critic_hidden_sizes 1
    Act.identity Act.relu tc1.2
  let actor_optim := Adam a.1.paramLocs hp.actor_lr
  let critic_optim1 := Adam c1.1.paramLocs hp.critic_lr
  let critic_optim2 := Adam c2.1.paramLocs hp.critic_lr
  let h1 := hard_update a.1 ta.1 tc2.2.heap
  let h2 := hard_update c1.1 tc1.1 h1
  let h3 := hard_update c2.1 tc2.1 h2
  (⟨a.1, c1.1, c2.1, ta.1, tc1.1, tc2.1, actor_optim, critic_optim1,
    critic_optim2⟩, h3)

/-- View of a stored tensor as a weight matrix (as `nn.Linear.forward` reads
it). -/
def Tensor.toMat : Tensor → List (List ℚ)
  | Tensor.mat m => m
  | Tensor.vec _ => []

/-- View of a stored tensor as a bias vector. -/
def Tensor.toVec : Tensor → List ℚ
  | Tensor.vec v => v
  | Tensor.mat _ => []

/-- One step of `nn.Sequential` evaluation in the store view: the running value
together with the store, so that a (hypothetical) state change by a layer would be
observable.  `nn.Linear.forward` only reads its weight and bias; activations touch
no state. -/
def LayerL.runH (ι : Act → ℚ → ℚ) : LayerL → List ℚ × Heap → List ℚ × Heap
  | LayerL.linear _ _ wl bl, vh =>
    (affine (vh.2 wl).toMat (vh.2 bl).toVec vh.1, vh.2)
  | LayerL.act a, vh => (vh.1.map (ι a), vh.2)

/-- `MLP.forward` in the store view (lines 53–55): fold the layers over the input
and the store. -/
def MLPL.forwardH (ι : Act → ℚ → ℚ) (m : MLPL) (x : List ℚ) (h : Heap) :
    List ℚ × Heap :=
  m.fcs.foldl (fun vh l => l.runH ι vh) (x, h)

lemma runLayers_heap (ι : Act → ℚ → ℚ) :
    ∀ (fcs : List LayerL) (x : List ℚ) (h : Heap),
      (fcs.foldl (fun vh l => l.runH ι vh) (x, h)).2 = h := by
  intro fcs
  induction fcs with
  | nil => intro x h; rfl
  | cons l ls ih =>
    intro x h
    cases l with
    | linear i o wl bl => simpa [LayerL.runH] using ih _ h
    | act a => simpa [LayerL.runH] using ih _ h

lemma runLayers_agree (ι : Act → ℚ → ℚ) :
    ∀ (fcs : List LayerL) (x : List ℚ) (h1 h2 : Heap),
      (∀ l ∈ (fcs.map LayerL.locs).flatten, h1 l = h2 l) →
        (fcs.foldl (fun vh l => l.runH ι vh) (x, h1)).1 =
          (fcs.foldl (fun vh l => l.runH ι vh) (x, h2)).1 := by
  intro fcs
  induction fcs with
  | nil => intro x h1 h2 _; rfl
  | cons l ls ih =>
    intro x h1 h2 hagree
    cases l with
    | linear i o wl bl =>
      have hw : h1 wl = h2 wl := hagree wl (by simp [LayerL.locs])
      have hb : h1 bl = h2 bl := hagree bl (by simp [LayerL.locs])
      simp only [List.foldl_cons, LayerL.runH, hw, hb]
      refine ih _ h1 h2 fun j hj => hagree j ?_
      simp only [List.map_cons, List.flatten_cons, List.mem_append]
      exact Or.inr hj
    | act a =>
      simp only [List.foldl_cons, LayerL.runH]
      refine ih _ h1 h2 fun j hj => hagree j ?_
      simp only [List.map_cons, List.flatten_cons, List.mem_append]
      exact Or.inr hj

/-- C9: the forward pass of a constructed network is a pure function of the
current weights and the input: it leaves the parameter store exactly as it was (no
weight or other network state is mutated), and any two stores that agree on the
network's own parameter tensors — in particular two calls with identical weights
and identical input — produce equal outputs, so forward calls can be repeated
freely. -/
theorem mlp_forward_pure (ι : Act → ℚ → ℚ) (m : MLPL) (x : List ℚ) (h : Heap) :
    (m.forwardH ι x h).2 = h ∧
      ∀ h2 : Heap, (∀ l ∈ m.paramLocs, h l = h2 l) →
        (m.forwardH ι x h).1 = (m.forwardH ι x h2).1 :=
  ⟨runLayers_heap ι m.fcs x h,
    fun h2 hagree => runLayers_agree ι m.fcs x h h2 hagree⟩

/-- Instantiation of `mlp_forward_pure`: a concrete one-layer network, evaluated in
a store and in a second store that differs only outside the network's parameters,
leaves the store untouched and yields the same output. -/
theorem mlp_forward_pure_witness :
    ((mkMLPL (fun _ => Tensor.vec [0]) 1 [] 1 Act.identity Act.relu
          ⟨fun _ => Tensor.vec [], 0⟩).1.forwardH (fun _ => id) [0]
        (fun _ => Tensor.vec [0])).2 = (fun _ => Tensor.vec [0]) ∧
      ((mkMLPL (fun _ => Tensor.vec [0]) 1 [] 1 Act.identity Act.relu
            ⟨fun _ => Tensor.vec [], 0⟩).1.forwardH (fun _ => id) [0]
          (fun _ => Tensor.vec [0])).1 =
        ((mkMLPL (fun _ => Tensor.vec [0]) 1 [] 1 Act.identity Act.relu
            ⟨fun _ => Tensor.vec [], 0⟩).1.forwardH (fun _ => id) [0]
          (fun n => if n = 5 then Tensor.mat [[1]] else Tensor.vec [0])).1 :=
  ⟨(mlp_forward_pure (fun _ => id)
      (mkMLPL (fun _ => Tensor.vec [0]) 1 [] 1 Act.identity Act.relu
        ⟨fun _ => Tensor.vec [], 0⟩).1 [0] (fun _ => Tensor.vec [0])).1,
    (mlp_forward_pure (fun _ => id)
      (mkMLPL (fun _ => Tensor.vec [0]) 1 [] 1 Act.identity Act.relu
        ⟨fun _ => Tensor.vec [], 0⟩).1 [0] (fun _ => Tensor.vec [0])).2
      (fun n => if n = 5 then Tensor.mat [[1]] else Tensor.vec [0]) (by decide)⟩

/-- The actor network built by `init_model`: `state_size → 400 → 300 → action_size`
with tanh output, its six parameter tensors at locations 0–5 (first network
allocated). -/
def actorL (s a : Nat) : MLPL :=
  ⟨[LayerL.linear s 400 0 1, LayerL.act Act.relu,
    LayerL.linear 400 300 2 3, LayerL.act Act.relu,
    LayerL.linear 300 a 4 5, LayerL.act Act.tanh]⟩

/-- The target actor: structurally identical to the actor, parameters at
locations 6–11. -/
def targetActorL (s a : Nat) : MLPL :=
  ⟨[LayerL.linear s 400 6 7, LayerL.act Act.relu,
    LayerL.linear 400 300 8 9, LayerL.act Act.relu,
    LayerL.linear 300 a 10 11, LayerL.act Act.tanh]⟩

/-- A critic network of `init_model` (`state_size+action_size → 400 → 300 → 1`,
identity output), with its six parameter tensors starting at location `base`. -/
def criticL (s a base : Nat) : MLPL :=
  ⟨[LayerL.linear (s + a) 400 base (base + 1), LayerL.act Act.relu,
    LayerL.linear 400 300 (base + 2) (base + 3), LayerL.act Act.relu,
    LayerL.linear 300 1 (base + 4) (base + 5), LayerL.act Act.identity]⟩

lemma init_model_bundle (rand : Draws) (s a : Nat) (ha : ¬a = 0) :
    (init_model rand s a).1 =
      ⟨actorL s a, criticL s a 12, criticL s a 18, targetActorL s a,
        criticL s a 24, criticL s a 30,
        ⟨(actorL s a).paramLocs, 1 / 1000⟩,
        ⟨(criticL s a 12).paramLocs, 1 / 1000⟩,
        ⟨(criticL s a 18).paramLocs, 1 / 1000⟩⟩ := by
  simp [init_model, init_hyperparams, mkMLPL, hiddenLayersL, mkLinearL, Alloc.alloc,
    ha, Adam, actorL, targetActorL, criticL, MLPL.paramLocs, LayerL.locs]

/-- C7: the experiment assembly builds exactly one actor
`state_size → 400 → 300 → action_size` with tanh output activation, a structurally
identical target actor, two independent critics
`state_size + action_size → 400 → 300 → 1` with identity (no) output activation —
independent in that their parameter sets are disjoint — two structurally identical
target critics, and three optimizers, each bound exactly to the parameters of one
live network (actor, critic1, critic2, at the declared learning rates) and to no
target network's parameters. -/
theorem td3_assembly_wiring (rand : Draws) (s a : Nat) (ha : 0 < a) :
    (init_model rand s a).1.actor.topology =
      [Sum.inl (s, 400), Sum.inr Act.relu, Sum.inl (400, 300), Sum.inr Act.relu,
        Sum.inl (300, a), Sum.inr Act.tanh] ∧
    (init_model rand s a).1.target_actor.topology =
      (init_model rand s a).1.actor.topology ∧
    (init_model rand s a).1.critic1.topology =
      [Sum.inl (s + a, 400), Sum.inr Act.relu, Sum.inl (400, 300), Sum.inr Act.relu,
        Sum.inl (300, 1), Sum.inr Act.identity] ∧
    (init_model rand s a).1.critic2.topology =
      (init_model rand s a).1.critic1.topology ∧
    (init_model rand s a).1.target_critic1.topology =
      (init_model rand s a).1.critic1.topology ∧
    (init_model rand s a).1.target_critic2.topology =
      (init_model rand s a).1.critic1.topology ∧
    (init_model rand s a).1.critic1.paramLocs.Disjoint
      (init_model rand s a).1.critic2.paramLocs ∧
    (init_model rand s a).1.actor_optim =
      ⟨(init_model rand s a).1.actor.paramLocs, init_hyperparams.actor_lr⟩ ∧
    (init_model rand s a).1.critic_optim1 =
      ⟨(init_model rand s a).1.critic1.paramLocs, init_hyperparams.critic_lr⟩ ∧
    (init_model rand s a).1.critic_optim2 =
      ⟨(init_model rand s a).1.critic2.paramLocs, init_hyperparams.critic_lr⟩ ∧
    ∀ tgt ∈ [(init_model rand s a).1.target_actor,
        (init_model rand s a).1.target_critic1,
        (init_model rand s a).1.target_critic2],
      (init_model rand s a).1.actor_optim.params.Disjoint tgt.paramLocs ∧
        (init_model rand s a).1.critic_optim1.params.Disjoint tgt.paramLocs ∧
        (init_model rand s a).1.critic_optim2.params.Disjoint tgt.paramLocs := by
  have ha' : ¬a = 0 := ha.ne'
  rw [init_model_bundle rand s a ha']
  refine ⟨rfl, rfl, rfl, rfl, rfl, rfl,
    by simp [criticL, MLPL.paramLocs, LayerL.locs, List.Disjoint], rfl, rfl, rfl, ?_⟩
  intro tgt htgt
  fin_cases htgt <;>
    exact ⟨by simp [actorL, targetActorL, criticL, MLPL.paramLocs, LayerL.locs,
        List.Disjoint],
      by simp [targetActorL, criticL, MLPL.paramLocs, LayerL.locs, List.Disjoint],
      by simp [targetActorL, criticL, MLPL.paramLocs, LayerL.locs, List.Disjoint]⟩

/-- Instantiation of `td3_assembly_wiring` at the BipedalWalker sizes
(`state_size = 24`, `action_size = 4`). -/
theorem td3_assembly_wiring_witness :
    (init_model (fun _ => Tensor.vec []) 24 4).1.actor.topology =
      [Sum.inl (24, 400), Sum.inr Act.relu, Sum.inl (400, 300), Sum.inr Act.relu,
        Sum.inl (300, 4), Sum.inr Act.tanh] :=
  (td3_assembly_wiring (fun _ => Tensor.vec []) 24 4 (by decide)).1


/-- The parameter store produced by the six network constructions of
`init_model` (36 tensors at locations 0-35, in allocation order), before the
hard-update copies. -/
def allocHeap (rand : Draws) : Heap :=
    (Heap.update 
    (Heap.update 
    (Heap.update 
    (Heap.update 
    (Heap.update 
    (Heap.update 
    (Heap.update 
    (Heap.update 
    (Heap.update 
    (Heap.update 
    (Heap.update 
    (Heap.update 
    (Heap.update 
    (Heap.update 
    (Heap.update 
    (Heap.update 
    (Heap.update 
    (Heap.update 
    (Heap.update 
    (Heap.update 
    (Heap.update 
    (Heap.update 
    (Heap.update 
    (Heap.update 
    (Heap.update 
    (Heap.update 
    (Heap.update 
    (Heap.update 
    (Heap.update 
    (Heap.update 
    (Heap.update 
    (Heap.update 
    (Heap.update 
    (Heap.update 
    (Heap.update 
    (Heap.update (fun _ => Tensor.vec []) 0 (rand 0)) 1 (rand 1)) 2 (rand 2)) 3 (rand 3)) 4 (rand 4)) 5 (rand 5)) 6 (rand 6)) 7 (rand 7)) 8 (rand 8)) 9 (rand 9)) 10 (rand 10)) 11 (rand 11)) 12 (rand 12)) 13 (rand 13)) 14 (rand 14)) 15 (rand 15)) 16 (rand 16)) 17 (rand 17)) 18 (rand 18)) 19 (rand 19)) 20 (rand 20)) 21 (rand 21)) 22 (rand 22)) 23 (rand 23)) 24 (rand 24)) 25 (rand 25)) 26 (rand 26)) 27 (rand 27)) 28 (rand 28)) 29 (rand 29)) 30 (rand 30)) 31 (rand 31)) 32 (rand 32)) 33 (rand 33)) 34 (rand 34)) 35 (rand 35))

lemma init_model_heap_eq (rand : Draws) (s a : Nat) (ha : ¬a = 0) :
    (init_model rand s a).2 =
      hard_update (criticL s a 18) (criticL s a 30)
        (hard_update (criticL s a 12) (criticL s a 24)
          (hard_update (actorL s a) (targetActorL s a) (allocHeap rand))) := by
  simp [init_model, init_hyperparams, mkMLPL, hiddenLayersL, mkLinearL, Alloc.alloc,
    ha, allocHeap, actorL, targetActorL, criticL]

/-- The hard-copy correctness relation for one live/target pair: each target
parameter tensor is element-wise equal to the corresponding live tensor, is a
distinct tensor (different location), and mutating either one afterwards leaves
the other unchanged. -/
def hardCopied (live target : MLPL) (h : Heap) : Prop :=
  ∀ p ∈ live.paramLocs.zip target.paramLocs,
    h p.2 = h p.1 ∧ p.1 ≠ p.2 ∧
      ∀ t : Tensor, Heap.update h p.1 t p.2 = h p.2 ∧
        Heap.update h p.2 t p.1 = h p.1

/-- C6: immediately after `init_model` returns, every parameter tensor of each
target network (`target_actor`, `target_critic1`, `target_critic2`) is element-wise
equal to the corresponding parameter tensor of its live counterpart, yet is a
distinct tensor: mutating a live parameter after the copy does not change the
target parameter, and vice versa. -/
theorem td3_target_hard_copy (rand : Draws) (s a : Nat) (ha : 0 < a) :
    hardCopied (init_model rand s a).1.actor (init_model rand s a).1.target_actor
        (init_model rand s a).2 ∧
      hardCopied (init_model rand s a).1.critic1
        (init_model rand s a).1.target_critic1 (init_model rand s a).2 ∧
      hardCopied (init_model rand s a).1.critic2
        (init_model rand s a).1.target_critic2 (init_model rand s a).2 := by
  have ha' : ¬a = 0 := ha.ne'
  rw [init_model_bundle rand s a ha', init_model_heap_eq rand s a ha']
  refine ⟨?_, ?_, ?_⟩ <;>
  · intro p hp
    simp only [MLPL.paramLocs, actorL, targetActorL, criticL, LayerL.locs,
      List.map_cons, List.map_nil, List.flatten_cons, List.flatten_nil,
      List.zip_cons_cons, List.zip_nil_right, List.append_nil] at hp
    fin_cases hp <;>
      refine ⟨?_, by decide, fun t =>
        ⟨by simp [Heap.update], by simp [Heap.update]⟩⟩ <;>
      simp [hard_update, actorL, targetActorL, criticL, MLPL.paramLocs, LayerL.locs,
        allocHeap, Heap.update]

/-- Instantiation of `td3_target_hard_copy` at the BipedalWalker sizes. -/
theorem td3_target_hard_copy_witness :
    hardCopied (init_model (fun _ => Tensor.vec []) 24 4).1.actor
      (init_model (fun _ => Tensor.vec []) 24 4).1.target_actor
      (init_model (fun _ => Tensor.vec []) 24 4).2 :=
  (td3_target_hard_copy (fun _ => Tensor.vec []) 24 4 (by decide)).1
